import Mathlib

/-!
# Verification of the conditional regression tree trainer (`Tree.hpp`)

Shallow embedding of the tree-growing engine of this repository:
`src/include/Tree.hpp` (class `Tree`) and `src/include/Constants.hpp`
(struct `ForestParam`).

The collaborator headers `TreeNode.hpp` and `SplitGen.hpp` are not part of
the sources; where their behaviour is needed it is modelled from the spec
(each such definition carries a doc comment starting with
`Modelled from the spec:`).

Modelling conventions:
* C++ `int` counters (`i_node`, `i_leaf`, `m_num_nodes`) only ever grow and
  stay far below `INT_MAX` for the depths in scope, so they are embedded as
  `Nat`; `powf(2.0f, k) - 1` is exact in these ranges and becomes `2 ^ k - 1`.
* `double` scores (`Split::info`, `Split::oob`) are embedded as `Int`; the
  sentinel `boost::numeric::bounds<double>::lowest()` becomes the
  distinguished value `lowestDouble` (below every score a generator emits).
* The boost Mersenne-twister stream is embedded as a list of raw draws
  (`Rng`); `boost::uniform_int<>(0, 100)` consumes one draw.
* The opaque `Sample*` is embedded as `Nat` (an identifier); the external
  capability `Sample::evalTest` is a function parameter of type `EvalFn`,
  and `SplitGen::generate` is a function parameter of type `GenFn`.
* Real time (`cv::getTickCount`, `saveAuto`) and logging (`PRINT`) have no
  effect on any state the claims mention and are not modelled.
-/

namespace FaceAlign

/-- A candidate binary test, `Sample::Split` in the code (the concrete split
type lives with the `Sample` capability; its four fields are the ones
`Tree.hpp` reads: `threshold`, `margin`, `info`, `oob`). -/
structure Split where
  threshold : Int
  margin : Int
  info : Int
  oob : Int
deriving DecidableEq, Repr

/-- Model of `boost::numeric::bounds<double>::lowest()`: a value strictly
below every score a split generator produces. -/
def lowestDouble : Int := -(Int.ofNat (2 ^ 1024))

/-- Model of `boost::numeric::bounds<double>::highest()`. -/
def highestDouble : Int := Int.ofNat (2 ^ 1024)

/-- Opaque training patch (`Sample*` in the code): an identifier. -/
abbrev Sample := Nat

/-- The external capability `Sample::evalTest(split)`: scores a sample
against a split, yielding the sortable scalar used for routing. -/
abbrev EvalFn := Sample → Split → Int

/-- Model of the boost Mersenne twister `boost::mt19937`: the stream of raw
draws it will produce. -/
structure Rng where
  stream : List Nat
deriving DecidableEq, Repr

/-- Model of one draw of `boost::uniform_int<>(lo, hi)` through a
`boost::variate_generator` over the twister: consumes one raw draw and maps
it into `[lo, hi]`. -/
def drawUniformInt (lo hi : Nat) (rng : Rng) : Nat × Rng :=
  match rng.stream with
  | [] => (lo, ⟨[]⟩)
  | x :: xs => (lo + x % (hi - lo + 1), ⟨xs⟩)

/-- The subset of `ForestParam` (`Constants.hpp`) the Tree consumes:
`max_depth`, `min_patches`, `ntests`, plus the derived `getPatchSize()`
value (its float rounding is irrelevant here, the Tree only forwards it to
the split generator). -/
structure ForestParam where
  max_depth : Nat
  min_patches : Nat
  ntests : Nat
  patch_size : Nat
deriving DecidableEq, Repr

/-- Modelled from the spec: the leaf payload (`Sample::Leaf`) is computed by
the external per-node statistics capability (`TreeNode::createLeaf` lives in
the missing `TreeNode.hpp`); the spec keeps it opaque
(`summarize(samples) -> leafPayload`), so the payload is modelled as the
summarized sample batch itself. -/
def summarize (samples : List Sample) : List Sample := samples

/-- Modelled from the spec: `TreeNode<Sample>` (`TreeNode.hpp` is not under
`src/`). Following the spec's data model, a node is a tagged variant
`{Unresolved, Leaf(payload), Internal(split, left, right)}` carrying the
depth fixed at construction. -/
inductive TreeNode where
  | unresolved (depth : Nat)
  | leaf (depth : Nat) (payload : List Sample)
  | internal (depth : Nat) (split : Split) (left right : TreeNode)
deriving DecidableEq, Repr

/-- `TreeNode::getDepth()`. -/
def TreeNode.getDepth : TreeNode → Nat
  | .unresolved d => d
  | .leaf d _ => d
  | .internal d _ _ _ => d

/-- `TreeNode::isLeaf()`. -/
def TreeNode.isLeaf : TreeNode → Bool
  | .leaf _ _ => true
  | _ => false

/-- `TreeNode::hasSplit()` (true exactly on internal nodes carrying a
split). -/
def TreeNode.hasSplit : TreeNode → Bool
  | .internal _ _ _ _ => true
  | _ => false

/-- The mutable per-growth state threaded through `Tree::grow`: the
counters `i_node`, `i_leaf` and the RNG stream `*m_rng`. -/
structure GrowState where
  i_node : Nat
  i_leaf : Nat
  rng : Rng
deriving DecidableEq, Repr

/-- `SplitGen<Sample>::generate` as an external capability
(`SplitGen.hpp` is not under `src/`): given the batch, the number of tests
`ntests`, the RNG, the patch size, the depth and the split mode, produce the
candidate splits and the advanced RNG. -/
abbrev GenFn := List Sample → Nat → Rng → Nat → Nat → Nat → List Split × Rng

/-- The sentinel initial best split of `Tree::findOptimalSplit`:
`best_split.info = lowest; best_split.oob = highest;` (the other fields are
default-constructed; only `info` is ever compared). -/
def sentinelSplit : Split := { threshold := 0, margin := 0, info := lowestDouble, oob := highestDouble }

/-- The selection pass of `Tree::findOptimalSplit` (Tree.hpp:277-288):
a single fold over the generated candidates keeping the current best,
replacing it only on strictly larger `info`; reports failure (`none`)
exactly when the final best still has the sentinel score. -/
def selectBestSplit (splits : List Split) : Option Split :=
  let best := splits.foldl (fun best s => if s.info > best.info then s else best) sentinelSplit
  if best.info = lowestDouble then none else some best

/-- `Tree::findOptimalSplit` (Tree.hpp:261-289): draw the split mode
uniformly from `[0, 100]`, run the generator, then select the best
candidate. Returns the chosen split (or `none` on failure) and the advanced
RNG. -/
def findOptimalSplit (gen : GenFn) (p : ForestParam) (samples : List Sample) (depth : Nat)
    (rng : Rng) : Option Split × Rng :=
  let m := drawUniformInt 0 100 rng
  let g := gen samples p.ntests m.2 p.patch_size depth m.1
  (selectBestSplit g.1, g.2)

/-- The ordering `std::sort` applies to the `IntIndex` value/original-index
pairs in `Tree::applyOptimalSplit`: lexicographic on (scalar, index), which
is exactly "stable ascending by scalar" since the indices are distinct. -/
def IntIndexLe (a b : Int × Nat) : Prop :=
  a.1 < b.1 ∨ (a.1 = b.1 ∧ a.2 ≤ b.2)

instance : DecidableRel IntIndexLe := fun a b => by
  unfold IntIndexLe; infer_instance

instance : IsTotal (Int × Nat) IntIndexLe where
  total a b := by
    rcases lt_trichotomy a.1 b.1 with h | h | h
    · exact Or.inl (Or.inl h)
    · rcases Nat.le_total a.2 b.2 with h2 | h2
      · exact Or.inl (Or.inr ⟨h, h2⟩)
      · exact Or.inr (Or.inr ⟨h.symm, h2⟩)
    · exact Or.inr (Or.inl h)

instance : IsTrans (Int × Nat) IntIndexLe where
  trans a b c hab hbc := by
    rcases hab with h1 | ⟨e1, l1⟩
    · rcases hbc with h2 | ⟨e2, _⟩
      · exact Or.inl (h1.trans h2)
      · exact Or.inl (e2 ▸ h1)
    · rcases hbc with h2 | ⟨e2, l2⟩
      · exact Or.inl (e1 ▸ h2)
      · exact Or.inr ⟨e1.trans e2, l1.trans l2⟩

/-- Modelled from the spec: `SplitGen<Sample>::splitSamples`
(`SplitGen.hpp` is not under `src/`). The spec says the value-ordered batch
is partitioned into two subsets using the split's `threshold` and `margin`,
the exact rule being owned by the split generator and opaque to the Tree;
it is modelled as the partition of the ordered batch at the threshold, with
`margin` an (unused) parameter of the rule. -/
def splitSamples (samples : List Sample) (val_set : List (Int × Nat))
    (threshold margin : Int) : List Sample × List Sample :=
  ((val_set.filter (fun vi => vi.1 ≤ threshold)).map (fun vi => samples.getD vi.2 0),
   (val_set.filter (fun vi => ¬ vi.1 ≤ threshold)).map (fun vi => samples.getD vi.2 0))

/-- The value/index pair list built by `Tree::applyOptimalSplit`
(Tree.hpp:300-305): `val_set[i] = (samples[i]->evalTest(best_split), i)`. -/
def valSet (ev : EvalFn) (samples : List Sample) (best : Split) : List (Int × Nat) :=
  samples.enum.map (fun p => (ev p.2 best, p.1))

/-- `Tree::applyOptimalSplit` (Tree.hpp:291-308): build the value/index
pairs, sort them ascending by (value, index) — `std::sort` on `IntIndex`
pairs, whose index component makes the order stable in the original batch
order — and hand the ordered batch to the split generator's partition. -/
def applyOptimalSplit (ev : EvalFn) (samples : List Sample) (best : Split) :
    List Sample × List Sample :=
  let sorted := List.insertionSort IntIndexLe (valSet ev samples best)
  splitSamples samples sorted best.threshold best.margin

/-- The fresh-growth part of `Tree::grow` for nodes that are not yet
resolved (the branch at Tree.hpp:136-168 together with the leaf guard at
Tree.hpp:111-119). `gas` is the structural fuel; every caller passes
`gas = max_depth - depth`, which the guard `depth >= max_depth` keeps
positive whenever the split branch is reached, so the `gas = 0` arm of that
branch is dead code. -/
def growFresh (gen : GenFn) (ev : EvalFn) (p : ForestParam) :
    Nat → Nat → List Sample → GrowState → TreeNode × GrowState
  | gas, depth, samples, st =>
    if samples.length < p.min_patches ∨ p.max_depth ≤ depth then
      -- Tree.hpp:111-119 — force a leaf, consume the whole subtree budget
      (.leaf depth (summarize samples),
       ⟨st.i_node + (2 ^ (p.max_depth - depth) - 1), st.i_leaf + 1, st.rng⟩)
    else
      match findOptimalSplit gen p samples depth st.rng with
      | (none, rng2) =>
        -- Tree.hpp:159-168 — no valid split found: force a leaf
        (.leaf depth (summarize samples),
         ⟨st.i_node + (2 ^ (p.max_depth - depth) - 1), st.i_leaf + 1, rng2⟩)
      | (some best, rng2) =>
        match gas with
        | 0 => (.unresolved depth, st) -- dead: callers keep gas = max_depth - depth > 0 here
        | gas' + 1 =>
          -- Tree.hpp:137-157 — assign the split, count 1, grow fresh children
          let sets := applyOptimalSplit ev samples best
          let st1 : GrowState := ⟨st.i_node + 1, st.i_leaf, rng2⟩
          let l2 := growFresh gen ev p gas' (depth + 1) sets.1 st1
          let r2 := growFresh gen ev p gas' (depth + 1) sets.2 l2.2
          (.internal depth best l2.1 r2.1, r2.2)

/-- `Tree::grow` (Tree.hpp:102-171). Branch map: a node satisfying
`samples.size() < min_patches || depth >= max_depth || node->isLeaf()`
becomes a leaf (Tree.hpp:111-119); a node that `hasSplit()` re-routes the
current samples through the stored split, counts one node and recurses into
the two existing children (Tree.hpp:122-134); an unresolved node searches a
fresh split (`growFresh`, Tree.hpp:136-168). -/
def grow (gen : GenFn) (ev : EvalFn) (p : ForestParam) :
    TreeNode → List Sample → GrowState → TreeNode × GrowState
  | .leaf depth _, samples, st =>
    -- node->isLeaf(): `createLeaf(samples)` recomputes the payload from the
    -- current batch
    (.leaf depth (summarize samples),
     ⟨st.i_node + (2 ^ (p.max_depth - depth) - 1), st.i_leaf + 1, st.rng⟩)
  | .internal depth best l r, samples, st =>
    if samples.length < p.min_patches ∨ p.max_depth ≤ depth then
      (.leaf depth (summarize samples),
       ⟨st.i_node + (2 ^ (p.max_depth - depth) - 1), st.i_leaf + 1, st.rng⟩)
    else
      -- reload mode (Tree.hpp:122-134): re-route through the stored split,
      -- `i_node++`, recurse into the existing children
      let sets := applyOptimalSplit ev samples best
      let st1 : GrowState := ⟨st.i_node + 1, st.i_leaf, st.rng⟩
      let l2 := grow gen ev p l sets.1 st1
      let r2 := grow gen ev p r sets.2 l2.2
      (.internal depth best l2.1 r2.1, r2.2)
  | .unresolved depth, samples, st =>
    growFresh gen ev p (p.max_depth - depth) depth samples st

/-- The Tree state (`Tree.hpp:258, 326-332`): root node, parameters,
`m_num_nodes` (node budget), `i_node` (nodes consumed), `i_leaf` (leaves
created), the RNG pointer target and the save path. `m_ticks` (checkpoint
clock) is not modelled. -/
structure Tree where
  root : TreeNode
  m_param : ForestParam
  m_num_nodes : Nat
  i_node : Nat
  i_leaf : Nat
  rng : Rng
  m_save_path : String
deriving DecidableEq, Repr

/-- `Tree::isFinished` (Tree.hpp:72-79). -/
def Tree.isFinished (t : Tree) : Bool :=
  if t.m_num_nodes = 0 then false else t.i_node == t.m_num_nodes

/-- The training constructor `Tree::Tree(samples, param, rng, save_path)`
(Tree.hpp:43-63): set the budget `2^max_depth - 1`, zero the counters, grow
from an unresolved root at depth 0 (the trailing `save()` touches only the
filesystem and is modelled separately by `Tree.save`). -/
def Tree.construct (gen : GenFn) (ev : EvalFn) (samples : List Sample) (param : ForestParam)
    (rng : Rng) (save_path : String) : Tree :=
  let g := grow gen ev param (.unresolved 0) samples ⟨0, 0, rng⟩
  { root := g.1, m_param := param, m_num_nodes := 2 ^ param.max_depth - 1,
    i_node := g.2.i_node, i_leaf := g.2.i_leaf, rng := g.2.rng, m_save_path := save_path }

/-- `Tree::update` (Tree.hpp:81-100): reassign the RNG stream (this happens
before the `isFinished()` test), then, only if not finished, reset the
per-call counters and re-grow from the existing root. -/
def Tree.update (gen : GenFn) (ev : EvalFn) (t : Tree) (samples : List Sample)
    (rng : Rng) : Tree :=
  let t1 := { t with rng := rng }
  if t1.isFinished then t1
  else
    let g := grow gen ev t.m_param t.root samples ⟨0, 0, rng⟩
    { t1 with root := g.1, i_node := g.2.i_node, i_leaf := g.2.i_leaf, rng := g.2.rng }

/-- A direct call of the public method `Tree::grow` on the tree's root with
the current counters (grow is public; `update`/the constructor call it this
way internally). -/
def Tree.growCall (gen : GenFn) (ev : EvalFn) (t : Tree) (samples : List Sample) : Tree :=
  let g := grow gen ev t.m_param t.root samples ⟨t.i_node, t.i_leaf, t.rng⟩
  { t with root := g.1, i_node := g.2.i_node, i_leaf := g.2.i_leaf, rng := g.2.rng }

/-- Exactly the fields `Tree::serialize` (Tree.hpp:334-343) writes to the
boost text archive: `m_num_nodes`, `i_node`, `m_param`, `m_save_path` and
the node graph reachable from `root`. (`i_leaf`, `m_rng` and `m_ticks` are
not archived.) The node graph itself is archived by the missing
`TreeNode.hpp`; per the spec the snapshot is a structured serialization of
the node graph that round-trips exactly, so it is modelled as the tree
value itself. -/
structure TreeSnapshot where
  m_num_nodes : Nat
  i_node : Nat
  m_param : ForestParam
  m_save_path : String
  root : TreeNode
deriving DecidableEq, Repr

/-- `Tree::serialize` in saving direction (Tree.hpp:334-343). -/
def Tree.serialize (t : Tree) : TreeSnapshot :=
  ⟨t.m_num_nodes, t.i_node, t.m_param, t.m_save_path, t.root⟩

/-- `Tree::serialize` in loading direction: `Tree::load` default-constructs
a `Tree` (`Tree() {}`, which initializes nothing) and then reads the
archived fields into it. The fields absent from the archive keep the
default-constructed value: `i_leaf` stays indeterminate (modelled as 0) and
`m_rng` points nowhere (modelled as the empty stream). -/
def Tree.ofSnapshot (s : TreeSnapshot) : Tree :=
  { root := s.root, m_param := s.m_param, m_num_nodes := s.m_num_nodes,
    i_node := s.i_node, i_leaf := 0, rng := ⟨[]⟩, m_save_path := s.m_save_path }

/-- The content of a file at some path: either text that the boost text
archive parser rejects (modelled together with the `archive_exception` it
raises), or a well-formed archived Tree snapshot. -/
inductive FileContent where
  | garbage (raw : String)
  | archive (snap : TreeSnapshot)
deriving DecidableEq, Repr

/-- The parse step `ia >> *tree_aux` of `Tree::load` (Tree.hpp:210-212):
raises `boost::archive::archive_exception` (modelled as `Except.error`) on
content that is not a valid Tree snapshot. -/
def parseArchive : FileContent → Except String TreeSnapshot
  | .garbage raw => .error raw
  | .archive snap => .ok snap

/-- The filesystem, as save/load see it: path to content, `none` when the
path is unreadable. -/
def FS : Type := String → Option FileContent

/-- `Tree::save` (Tree.hpp:239-256): archive the serialized state at
`m_save_path`, overwriting prior content. -/
def Tree.save (t : Tree) (fs : FS) : FS :=
  fun path => if path = t.m_save_path then some (.archive t.serialize) else fs path

/-- `Tree::load` (Tree.hpp:193-237): fail (`none`) when the path cannot be
opened; otherwise parse the archive, catching the archive exception into a
failure (`none`); on success produce the reconstructed tree. -/
def Tree.load (fs : FS) (path : String) : Option Tree :=
  match fs path with
  | none => none
  | some content =>
    match parseArchive content with
    | .error _ => none
    | .ok snap => some (Tree.ofSnapshot snap)

/-- Tree states produced by a sequence of lifecycle calls in which `grow`
is invoked only internally: the training constructor followed by any number
of `update` calls, all with `max_depth ≥ 1`. -/
inductive Reachable (gen : GenFn) (ev : EvalFn) : Tree → Prop where
  | construct (samples : List Sample) (p : ForestParam) (rng : Rng) (path : String)
      (h : 1 ≤ p.max_depth) : Reachable gen ev (Tree.construct gen ev samples p rng path)
  | update (t : Tree) (samples : List Sample) (rng : Rng)
      (ht : Reachable gen ev t) : Reachable gen ev (Tree.update gen ev t samples rng)

/-- Tree states produced by any sequence of construct/update/grow calls
(`Tree::grow` is a public method, so a caller may invoke it directly on the
root), all with `max_depth ≥ 1`. -/
inductive ReachableFull (gen : GenFn) (ev : EvalFn) : Tree → Prop where
  | construct (samples : List Sample) (p : ForestParam) (rng : Rng) (path : String)
      (h : 1 ≤ p.max_depth) : ReachableFull gen ev (Tree.construct gen ev samples p rng path)
  | update (t : Tree) (samples : List Sample) (rng : Rng)
      (ht : ReachableFull gen ev t) : ReachableFull gen ev (Tree.update gen ev t samples rng)
  | growCall (t : Tree) (samples : List Sample)
      (ht : ReachableFull gen ev t) : ReachableFull gen ev (Tree.growCall gen ev t samples)

/-! ### Concrete instances used by witnesses and counterexamples -/

set_option maxRecDepth 8000

/-- A split generator producing no candidates. -/
def genZero : GenFn := fun _ _ rng _ _ _ => ([], rng)

/-- A split generator producing a single usable candidate. -/
def genOne : GenFn := fun _ _ rng _ _ _ => ([⟨0, 0, 7, 0⟩], rng)

/-- A scalar test capability sending everything to 0. -/
def evZero : EvalFn := fun _ _ => 0

/-- `max_depth 1`, `min_patches 10`. -/
def p1 : ForestParam := ⟨1, 10, 1, 5⟩

/-- `max_depth 1`, `min_patches 1`. -/
def p2 : ForestParam := ⟨1, 1, 1, 5⟩

/-- `max_depth 2`, `min_patches 1`. -/
def p3 : ForestParam := ⟨2, 1, 1, 5⟩

/-- A freshly trained tree over an empty batch: the root is forced to a
leaf (`0 < min_patches`), so `i_node = 1 = m_num_nodes`, `i_leaf = 1`, and
it is finished. -/
def t0 : Tree := Tree.construct genZero evZero [] p1 ⟨[]⟩ "p"

/-- `t0` after one direct call of the public `grow` on its root. -/
def t1 : Tree := Tree.growCall genZero evZero t0 []

/-- A split with all fields zero. -/
def s0 : Split := ⟨0, 0, 0, 0⟩

/-- An internal node at depth 0 of a `max_depth = 1` tree whose two
children are already leaves. -/
def n2 : TreeNode := .internal 0 s0 (.leaf 1 []) (.leaf 1 [])

/-- The empty filesystem. -/
def fsEmpty : FS := fun _ => none

/-- A filesystem holding unparsable text at every path. -/
def fsGarbage : FS := fun _ => some (.garbage "corrupt")

/-- A filesystem holding a valid archived snapshot at every path. -/
def fsArchive : FS := fun _ => some (.archive t0.serialize)

/-! ### Helper lemmas -/

/-- The final best of the selection fold of `Tree::findOptimalSplit` is
either the untouched accumulator dominating the whole list, or the first
element of the list attaining the maximum: everything before it is strictly
smaller, everything after it is no larger (so an equal later candidate does
not replace it). -/
lemma foldl_best_spec (l : List Split) (b : Split) :
    ((l.foldl (fun best s => if s.info > best.info then s else best) b) = b
      ∧ ∀ s ∈ l, s.info ≤ b.info)
    ∨ (∃ l1 l2, l = l1 ++ (l.foldl (fun best s => if s.info > best.info then s else best) b) :: l2
        ∧ b.info < (l.foldl (fun best s => if s.info > best.info then s else best) b).info
        ∧ (∀ s ∈ l1, s.info < (l.foldl (fun best s => if s.info > best.info then s else best) b).info)
        ∧ (∀ s ∈ l2, s.info ≤ (l.foldl (fun best s => if s.info > best.info then s else best) b).info)) := by
  induction l generalizing b with
  | nil => exact Or.inl ⟨rfl, by simp⟩
  | cons a t ih =>
    by_cases ha : a.info > b.info
    · have hstep : (a :: t).foldl (fun best s => if s.info > best.info then s else best) b
        = t.foldl (fun best s => if s.info > best.info then s else best) a := by
        simp [List.foldl_cons, if_pos ha]
      rcases ih a with ⟨heq, hall⟩ | ⟨l1, l2, hdec, hlt, h1, h2⟩
      · refine Or.inr ⟨[], t, ?_, ?_, by simp, ?_⟩
        · simp [hstep, heq]
        · rw [hstep, heq]; exact ha
        · intro s hs; rw [hstep, heq]; exact hall s hs
      · refine Or.inr ⟨a :: l1, l2, ?_, ?_, ?_, ?_⟩
        · rw [hstep, List.cons_append]; exact congrArg (List.cons a) hdec
        · rw [hstep]; exact lt_trans ha hlt
        · intro s hs
          rcases List.mem_cons.mp hs with rfl | hs
          · rw [hstep]; exact hlt
          · rw [hstep]; exact h1 s hs
        · intro s hs; rw [hstep]; exact h2 s hs
    · have ha' : a.info ≤ b.info := le_of_not_lt ha
      have hstep : (a :: t).foldl (fun best s => if s.info > best.info then s else best) b
        = t.foldl (fun best s => if s.info > best.info then s else best) b := by
        simp [List.foldl_cons, if_neg ha]
      rcases ih b with ⟨heq, hall⟩ | ⟨l1, l2, hdec, hlt, h1, h2⟩
      · refine Or.inl ⟨by rw [hstep, heq], ?_⟩
        intro s hs
        rcases List.mem_cons.mp hs with rfl | hs
        · exact ha'
        · exact hall s hs
      · refine Or.inr ⟨a :: l1, l2, ?_, ?_, ?_, ?_⟩
        · rw [hstep, List.cons_append]; exact congrArg (List.cons a) hdec
        · rw [hstep]; exact hlt
        · intro s hs
          rcases List.mem_cons.mp hs with rfl | hs
          · rw [hstep]; exact lt_of_le_of_lt ha' hlt
          · rw [hstep]; exact h1 s hs
        · intro s hs; rw [hstep]; exact h2 s hs


/-- When `Tree::findOptimalSplit`'s selection succeeds, the returned split
is the first candidate attaining the maximal `info`: all earlier candidates
score strictly less, all later candidates score no more. -/
lemma selectBest_some (splits : List Split) (b : Split)
    (h : selectBestSplit splits = some b) :
    ∃ l1 l2, splits = l1 ++ b :: l2 ∧ (∀ s ∈ l1, s.info < b.info)
      ∧ (∀ s ∈ l2, s.info ≤ b.info) := by
  unfold selectBestSplit at h
  by_cases hinfo : (splits.foldl (fun best s => if s.info > best.info then s else best)
      sentinelSplit).info = lowestDouble
  · rw [if_pos hinfo] at h
    exact absurd h (by simp)
  · rw [if_neg hinfo] at h
    have hb := Option.some.inj h
    subst hb
    rcases foldl_best_spec splits sentinelSplit with ⟨heq, _⟩ | ⟨l1, l2, hdec, _, h1, h2⟩
    · exact absurd (by rw [heq]; rfl) hinfo
    · exact ⟨l1, l2, hdec, h1, h2⟩

/-- `Tree::findOptimalSplit`'s selection fails exactly when no generated
candidate scores above the sentinel. -/
lemma selectBest_none_iff (splits : List Split) :
    selectBestSplit splits = none ↔ ∀ s ∈ splits, s.info ≤ lowestDouble := by
  unfold selectBestSplit
  constructor
  · intro h
    by_cases hinfo : (splits.foldl (fun best s => if s.info > best.info then s else best)
        sentinelSplit).info = lowestDouble
    · rcases foldl_best_spec splits sentinelSplit with ⟨_, hall⟩ | ⟨_, _, _, hlt, _, _⟩
      · exact fun s hs => hall s hs
      · rw [hinfo] at hlt
        exact absurd hlt (by simp [sentinelSplit])
    · rw [if_neg hinfo] at h
      exact absurd h (by simp)
  · intro hall
    rcases foldl_best_spec splits sentinelSplit with ⟨heq, _⟩ | ⟨l1, l2, hdec, hlt, _, _⟩
    · rw [heq]; rfl
    · have hmem := List.mem_append_right l1
        (List.mem_cons_self (splits.foldl (fun best s => if s.info > best.info then s else best)
          sentinelSplit) l2)
      rw [← hdec] at hmem
      have hle := hall _ hmem
      have hsent : sentinelSplit.info = lowestDouble := rfl
      rw [hsent] at hlt
      omega


/-- Progress accounting of fresh growth: growing an unresolved node at
`depth` adds exactly `2^(max_depth - depth) - 1` to `i_node`, whichever
branches are taken (forced leaf, failed search, or split and recursion). -/
lemma growFresh_i_node (gen : GenFn) (ev : EvalFn) (p : ForestParam) :
    ∀ (gas depth : Nat) (samples : List Sample) (st : GrowState),
      p.max_depth ≤ gas + depth →
      (growFresh gen ev p gas depth samples st).2.i_node
        = st.i_node + (2 ^ (p.max_depth - depth) - 1) := by
  intro gas
  induction gas with
  | zero =>
    intro depth samples st h
    rw [growFresh]
    by_cases hg : samples.length < p.min_patches ∨ p.max_depth ≤ depth
    · rw [if_pos hg]
    · exact absurd (by omega : p.max_depth ≤ depth) (fun hd => hg (Or.inr hd))
  | succ gas ih =>
    intro depth samples st h
    rw [growFresh]
    by_cases hg : samples.length < p.min_patches ∨ p.max_depth ≤ depth
    · rw [if_pos hg]
    · rw [if_neg hg]
      have hd : depth < p.max_depth := by
        rcases Nat.lt_or_ge depth p.max_depth with hlt | hge
        · exact hlt
        · exact absurd (Or.inr hge) hg
      rcases hfo : findOptimalSplit gen p samples depth st.rng with ⟨ob, rng2⟩
      cases ob with
      | none => simp
      | some best =>
        simp only
        have h1 := ih (depth + 1) (applyOptimalSplit ev samples best).1
          ⟨st.i_node + 1, st.i_leaf, rng2⟩ (by omega)
        have h2 := ih (depth + 1) (applyOptimalSplit ev samples best).2
          (growFresh gen ev p gas (depth + 1) (applyOptimalSplit ev samples best).1
            ⟨st.i_node + 1, st.i_leaf, rng2⟩).2 (by omega)
        rw [h2, h1]
        have hproj : (⟨st.i_node + 1, st.i_leaf, rng2⟩ : GrowState).i_node
            = st.i_node + 1 := rfl
        rw [hproj]
        have hk : p.max_depth - depth = (p.max_depth - (depth + 1)) + 1 := by omega
        have hpow : 2 ^ (p.max_depth - depth) = 2 ^ (p.max_depth - (depth + 1)) * 2 := by
          rw [hk, pow_succ]
        have hone : 1 ≤ 2 ^ (p.max_depth - (depth + 1)) := Nat.one_le_two_pow
        omega

/-- The training constructor consumes the entire node budget: after
`Tree::Tree(samples, param, rng, save_path)` the counter `i_node` equals
`2^max_depth - 1`. -/
lemma construct_i_node (gen : GenFn) (ev : EvalFn) (samples : List Sample)
    (p : ForestParam) (rng : Rng) (path : String) :
    (Tree.construct gen ev samples p rng path).i_node = 2 ^ p.max_depth - 1 := by
  unfold Tree.construct
  simp only [grow]
  rw [growFresh_i_node gen ev p (p.max_depth - 0) 0 samples ⟨0, 0, rng⟩ (by omega)]
  show 0 + (2 ^ (p.max_depth - 0) - 1) = 2 ^ p.max_depth - 1
  rw [Nat.sub_zero, Nat.zero_add]

/-- `isFinished` in terms of the two counters. -/
lemma isFinished_eq_true_iff (t : Tree) :
    t.isFinished = true ↔ (t.i_node = t.m_num_nodes ∧ t.m_num_nodes ≠ 0) := by
  unfold Tree.isFinished
  by_cases h0 : t.m_num_nodes = 0
  · simp [h0]
  · simp [h0, beq_iff_eq]

/-- The lifecycle invariant behind claim C3: every state reachable by
construct and update calls has `i_node = m_num_nodes ≠ 0`. -/
lemma reachable_inv (gen : GenFn) (ev : EvalFn) (t : Tree)
    (h : Reachable gen ev t) : t.i_node = t.m_num_nodes ∧ t.m_num_nodes ≠ 0 := by
  induction h with
  | construct samples p rng path hmd =>
    refine ⟨?_, ?_⟩
    · rw [construct_i_node]; rfl
    · show ¬ (2 ^ p.max_depth - 1 = 0)
      have : 2 ^ 1 ≤ 2 ^ p.max_depth := Nat.pow_le_pow_right (by omega) hmd
      omega
  | update t samples rng ht ih =>
    have hfin : t.isFinished = true := (isFinished_eq_true_iff t).mpr ih
    have hfin' : ({ t with rng := rng } : Tree).isFinished = true := hfin
    unfold Tree.update
    rw [if_pos hfin']
    exact ih


/-! ### Claim theorems -/

/-- C1 (counterexample): save() followed by load() does not reproduce the
`leavesCreated` counter: `Tree::serialize` (Tree.hpp:334-343) never
archives `i_leaf`, so the tree `t0`, saved with `i_leaf = 1`, reloads with
the default-constructed value instead of 1. -/
theorem save_load_loses_i_leaf :
    (Tree.load (Tree.save t0 fsEmpty) t0.m_save_path).map Tree.i_leaf ≠ some t0.i_leaf := by
  decide

/-- C1 (amended): save() followed by load() on the saved path succeeds and
reproduces the node structure, `nodesConsumed` (`i_node`), the node budget,
the parameters, the save path and the `isFinished()` value; `leavesCreated`
(`i_leaf`) is not part of the archive and is not restored. -/
theorem save_load_roundtrip (t : Tree) (fs : FS) :
    Tree.load (Tree.save t fs) t.m_save_path = some (Tree.ofSnapshot t.serialize)
    ∧ (Tree.ofSnapshot t.serialize).root = t.root
    ∧ (Tree.ofSnapshot t.serialize).i_node = t.i_node
    ∧ (Tree.ofSnapshot t.serialize).m_num_nodes = t.m_num_nodes
    ∧ (Tree.ofSnapshot t.serialize).m_param = t.m_param
    ∧ (Tree.ofSnapshot t.serialize).m_save_path = t.m_save_path
    ∧ (Tree.ofSnapshot t.serialize).isFinished = t.isFinished := by
  refine ⟨?_, rfl, rfl, rfl, rfl, rfl, rfl⟩
  unfold Tree.load Tree.save
  rw [if_pos rfl]
  rfl

/-- C9: Tree::load returns failure, producing no Tree, when the path is
unreadable; when the content does not parse as a Tree snapshot, the archive
exception is caught at the load boundary and load again just returns
failure; on success it returns the reconstructed Tree. -/
theorem load_error_handling (fs : FS) (path : String) :
    (fs path = none → Tree.load fs path = none)
    ∧ (∀ raw, fs path = some (.garbage raw) →
        parseArchive (.garbage raw) = .error raw ∧ Tree.load fs path = none)
    ∧ (∀ snap, fs path = some (.archive snap) →
        Tree.load fs path = some (Tree.ofSnapshot snap)) := by
  refine ⟨fun h => ?_, fun raw h => ⟨rfl, ?_⟩, fun snap h => ?_⟩ <;>
    · unfold Tree.load
      rw [h]
      try rfl

/-- C9 (witness): the three branches of `load_error_handling` at concrete
filesystems. -/
theorem load_error_handling_witness :
    (fsEmpty "p" = none ∧ Tree.load fsEmpty "p" = none)
    ∧ (fsGarbage "p" = some (.garbage "corrupt") ∧ Tree.load fsGarbage "p" = none)
    ∧ (fsArchive "p" = some (.archive t0.serialize)
        ∧ Tree.load fsArchive "p" = some (Tree.ofSnapshot t0.serialize)) :=
  ⟨⟨rfl, (load_error_handling fsEmpty "p").1 rfl⟩,
   ⟨rfl, ((load_error_handling fsGarbage "p").2.1 "corrupt" rfl).2⟩,
   ⟨rfl, (load_error_handling fsArchive "p").2.2 t0.serialize rfl⟩⟩

/-- C5: isFinished() is true exactly when `i_node = m_num_nodes` with a
nonzero budget; a zero budget always reports not-finished; a Tree
constructed with `max_depth = 0` has `m_num_nodes = 0`; and neither update
nor a direct grow call ever changes `m_num_nodes`, so such a tree reports
not-finished forever. -/
theorem isFinished_spec (t : Tree) :
    (t.isFinished = true ↔ (t.i_node = t.m_num_nodes ∧ t.m_num_nodes ≠ 0))
    ∧ (t.m_num_nodes = 0 → t.isFinished = false)
    ∧ (∀ gen ev samples p rng path, p.max_depth = 0 →
        (Tree.construct gen ev samples p rng path).m_num_nodes = 0)
    ∧ (∀ gen ev samples rng,
        (Tree.update gen ev t samples rng).m_num_nodes = t.m_num_nodes
        ∧ (Tree.growCall gen ev t samples).m_num_nodes = t.m_num_nodes) := by
  refine ⟨isFinished_eq_true_iff t, fun h0 => ?_, ?_, ?_⟩
  · unfold Tree.isFinished
    rw [if_pos h0]
  · intro gen ev samples p rng path hp
    show 2 ^ p.max_depth - 1 = 0
    rw [hp]
    rfl
  · intro gen ev samples rng
    constructor
    · unfold Tree.update
      by_cases hf : ({ t with rng := rng } : Tree).isFinished
      · rw [if_pos hf]
      · rw [if_neg hf]
    · rfl

/-- C5 (witness): `isFinished_spec` evaluated on the finished tree `t0` and
on a `max_depth = 0` construction. -/
theorem isFinished_spec_witness :
    (t0.isFinished = true ∧ t0.i_node = t0.m_num_nodes ∧ t0.m_num_nodes ≠ 0)
    ∧ (Tree.construct genZero evZero [] ⟨0, 10, 1, 5⟩ ⟨[]⟩ "z").m_num_nodes = 0
    ∧ (Tree.construct genZero evZero [] ⟨0, 10, 1, 5⟩ ⟨[]⟩ "z").isFinished = false :=
  ⟨⟨by decide, (isFinished_spec t0).1.mp (by decide)⟩,
   (isFinished_spec t0).2.2.1 genZero evZero [] ⟨0, 10, 1, 5⟩ ⟨[]⟩ "z" rfl,
   (isFinished_spec (Tree.construct genZero evZero [] ⟨0, 10, 1, 5⟩ ⟨[]⟩ "z")).2.1
     ((isFinished_spec t0).2.2.1 genZero evZero [] ⟨0, 10, 1, 5⟩ ⟨[]⟩ "z" rfl)⟩

/-- C7 (counterexample): update() on an already-Finished tree is not a
complete no-op: `Tree::update` reassigns `m_rng` before testing
`isFinished()`, so the RNG component of the state changes. -/
theorem update_finished_changes_rng :
    (Tree.update genZero evZero t0 [] ⟨[3]⟩).rng ≠ t0.rng := by
  decide

/-- C7 (amended): update() on an already-Finished tree leaves the counters,
the node structure, the budget, the parameters and the save path unchanged;
the only mutation is the unconditional reassignment of the RNG stream to
the caller's argument. -/
theorem update_on_finished (gen : GenFn) (ev : EvalFn) (t : Tree)
    (samples : List Sample) (rng : Rng) (h : t.isFinished = true) :
    (Tree.update gen ev t samples rng).root = t.root
    ∧ (Tree.update gen ev t samples rng).i_node = t.i_node
    ∧ (Tree.update gen ev t samples rng).i_leaf = t.i_leaf
    ∧ (Tree.update gen ev t samples rng).m_num_nodes = t.m_num_nodes
    ∧ (Tree.update gen ev t samples rng).m_param = t.m_param
    ∧ (Tree.update gen ev t samples rng).m_save_path = t.m_save_path
    ∧ (Tree.update gen ev t samples rng).rng = rng := by
  have h' : ({ t with rng := rng } : Tree).isFinished = true := h
  unfold Tree.update
  rw [if_pos h']
  exact ⟨rfl, rfl, rfl, rfl, rfl, rfl, rfl⟩

/-- C7 (witness): `update_on_finished` applied to the finished tree `t0`. -/
theorem update_on_finished_witness :
    t0.isFinished = true
    ∧ (Tree.update genZero evZero t0 [] ⟨[3]⟩).root = t0.root
    ∧ (Tree.update genZero evZero t0 [] ⟨[3]⟩).i_node = t0.i_node
    ∧ (Tree.update genZero evZero t0 [] ⟨[3]⟩).i_leaf = t0.i_leaf :=
  ⟨by decide,
   (update_on_finished genZero evZero t0 [] ⟨[3]⟩ (by decide)).1,
   (update_on_finished genZero evZero t0 [] ⟨[3]⟩ (by decide)).2.1,
   (update_on_finished genZero evZero t0 [] ⟨[3]⟩ (by decide)).2.2.1⟩


/-- C2 (counterexample): the resume branch of `Tree::grow` does change
`nodesConsumed`: growing the already-split node `n2` (whose two children
are leaves at the depth bound, each contributing 0 as the next two
conjuncts show) moves `i_node` from 0 to 1 — the `i_node++` at
Tree.hpp:127. -/
theorem grow_resume_changes_i_node :
    (grow genZero evZero p2 n2 [5] ⟨0, 0, ⟨[]⟩⟩).2.i_node ≠ 0
    ∧ (grow genZero evZero p2 (.leaf 1 []) (applyOptimalSplit evZero [5] s0).1
        ⟨0, 0, ⟨[]⟩⟩).2.i_node = 0
    ∧ (grow genZero evZero p2 (.leaf 1 []) (applyOptimalSplit evZero [5] s0).2
        ⟨0, 0, ⟨[]⟩⟩).2.i_node = 0 := by
  exact ⟨by decide, by decide, by decide⟩

/-- C2 (amended): growing a node that already carries a Split (reload
mode) re-routes the current samples through the stored split and recurses
into the two existing children with the two subsets — but `i_node` is
incremented by exactly 1 by this branch itself (the split is re-counted,
`update` having reset the counter to 0 before re-growing). -/
theorem grow_resume_branch (gen : GenFn) (ev : EvalFn) (p : ForestParam)
    (depth : Nat) (best : Split) (l r : TreeNode) (samples : List Sample) (st : GrowState)
    (h : ¬(samples.length < p.min_patches ∨ p.max_depth ≤ depth)) :
    grow gen ev p (.internal depth best l r) samples st
      = (.internal depth best
          (grow gen ev p l (applyOptimalSplit ev samples best).1
            ⟨st.i_node + 1, st.i_leaf, st.rng⟩).1
          (grow gen ev p r (applyOptimalSplit ev samples best).2
            (grow gen ev p l (applyOptimalSplit ev samples best).1
              ⟨st.i_node + 1, st.i_leaf, st.rng⟩).2).1,
         (grow gen ev p r (applyOptimalSplit ev samples best).2
            (grow gen ev p l (applyOptimalSplit ev samples best).1
              ⟨st.i_node + 1, st.i_leaf, st.rng⟩).2).2) := by
  rw [grow, if_neg h]

/-- C2 (witness): `grow_resume_branch` at the concrete node `n2`. -/
theorem grow_resume_branch_witness :
    ¬(([5] : List Sample).length < p2.min_patches ∨ p2.max_depth ≤ 0)
    ∧ grow genZero evZero p2 n2 [5] ⟨0, 0, ⟨[]⟩⟩
      = (.internal 0 s0
          (grow genZero evZero p2 (.leaf 1 []) (applyOptimalSplit evZero [5] s0).1
            ⟨0 + 1, 0, ⟨[]⟩⟩).1
          (grow genZero evZero p2 (.leaf 1 []) (applyOptimalSplit evZero [5] s0).2
            (grow genZero evZero p2 (.leaf 1 []) (applyOptimalSplit evZero [5] s0).1
              ⟨0 + 1, 0, ⟨[]⟩⟩).2).1,
         (grow genZero evZero p2 (.leaf 1 []) (applyOptimalSplit evZero [5] s0).2
            (grow genZero evZero p2 (.leaf 1 []) (applyOptimalSplit evZero [5] s0).1
              ⟨0 + 1, 0, ⟨[]⟩⟩).2).2) :=
  ⟨by decide,
   grow_resume_branch genZero evZero p2 0 s0 (.leaf 1 []) (.leaf 1 []) [5]
     ⟨0, 0, ⟨[]⟩⟩ (by decide)⟩

/-- C3 (counterexample): when direct calls of the public `grow` belong to
the call sequence, the invariant fails: `t1` is reachable by
construct-then-grow with `max_depth = 1 ≥ 1`, and its `i_node = 2` exceeds
its budget `m_num_nodes = 1`. -/
theorem nodes_budget_cex :
    ReachableFull genZero evZero t1 ∧ ¬(t1.i_node ≤ t1.m_num_nodes) :=
  ⟨ReachableFull.growCall t0 [] (ReachableFull.construct [] p1 ⟨[]⟩ "p" (by decide)),
   by decide⟩

/-- C3 (amended): for every state reachable by construct and update calls
with `max_depth ≥ 1` — the lifecycle in which `grow` runs only inside them;
a further direct call of the public `grow` on an already-grown tree breaks
the bound — `nodesConsumed ≤ nodeBudget` holds, with equality exactly when
the tree is Finished. -/
theorem nodes_budget_invariant (gen : GenFn) (ev : EvalFn) (t : Tree)
    (h : Reachable gen ev t) :
    t.i_node ≤ t.m_num_nodes ∧ (t.i_node = t.m_num_nodes ↔ t.isFinished = true) := by
  obtain ⟨heq, hne⟩ := reachable_inv gen ev t h
  exact ⟨le_of_eq heq,
    ⟨fun _ => (isFinished_eq_true_iff t).mpr ⟨heq, hne⟩, fun _ => heq⟩⟩

/-- C3 (witness): the invariant at the concretely constructed tree `t0`. -/
theorem nodes_budget_invariant_witness :
    t0.i_node ≤ t0.m_num_nodes ∧ (t0.i_node = t0.m_num_nodes ↔ t0.isFinished = true) :=
  nodes_budget_invariant genZero evZero t0
    (Reachable.construct [] p1 ⟨[]⟩ "p" (by decide))

/-- C4: per-branch progress accounting of `Tree::grow`: (i) whenever the
leaf guard fires (batch below `min_patches`, depth bound reached, or the
node already a leaf) at a depth within the bound, `i_node` grows by exactly
`2^(max_depth - depth) - 1` and `i_leaf` by exactly 1; (ii) the same two
increments happen when the fresh split search fails; (iii) when a fresh
split is assigned, the state handed to the recursion over the two fresh
children carries exactly `i_node + 1`. -/
theorem grow_accounting (gen : GenFn) (ev : EvalFn) (p : ForestParam)
    (samples : List Sample) (st : GrowState) :
    (∀ node : TreeNode, node.getDepth ≤ p.max_depth →
      (samples.length < p.min_patches ∨ p.max_depth ≤ node.getDepth ∨ node.isLeaf = true) →
      (grow gen ev p node samples st).2.i_node
          = st.i_node + (2 ^ (p.max_depth - node.getDepth) - 1)
        ∧ (grow gen ev p node samples st).2.i_leaf = st.i_leaf + 1)
    ∧ (∀ depth rng2, ¬(samples.length < p.min_patches ∨ p.max_depth ≤ depth) →
        findOptimalSplit gen p samples depth st.rng = (none, rng2) →
        (grow gen ev p (.unresolved depth) samples st).2.i_node
            = st.i_node + (2 ^ (p.max_depth - depth) - 1)
          ∧ (grow gen ev p (.unresolved depth) samples st).2.i_leaf = st.i_leaf + 1)
    ∧ (∀ depth best rng2, ¬(samples.length < p.min_patches ∨ p.max_depth ≤ depth) →
        findOptimalSplit gen p samples depth st.rng = (some best, rng2) →
        grow gen ev p (.unresolved depth) samples st
          = (.internal depth best
              (grow gen ev p (.unresolved (depth + 1)) (applyOptimalSplit ev samples best).1
                ⟨st.i_node + 1, st.i_leaf, rng2⟩).1
              (grow gen ev p (.unresolved (depth + 1)) (applyOptimalSplit ev samples best).2
                (grow gen ev p (.unresolved (depth + 1)) (applyOptimalSplit ev samples best).1
                  ⟨st.i_node + 1, st.i_leaf, rng2⟩).2).1,
             (grow gen ev p (.unresolved (depth + 1)) (applyOptimalSplit ev samples best).2
                (grow gen ev p (.unresolved (depth + 1)) (applyOptimalSplit ev samples best).1
                  ⟨st.i_node + 1, st.i_leaf, rng2⟩).2).2)) := by
  refine ⟨?_, ?_, ?_⟩
  · intro node hdep hguard
    cases node with
    | leaf d payload => exact ⟨rfl, rfl⟩
    | internal d best l r =>
      have hg : samples.length < p.min_patches ∨ p.max_depth ≤ d := by
        rcases hguard with h1 | h2 | h3
        · exact Or.inl h1
        · exact Or.inr h2
        · exact absurd h3 (by simp [TreeNode.isLeaf])
      rw [grow, if_pos hg]
      exact ⟨rfl, rfl⟩
    | unresolved d =>
      have hg : samples.length < p.min_patches ∨ p.max_depth ≤ d := by
        rcases hguard with h1 | h2 | h3
        · exact Or.inl h1
        · exact Or.inr h2
        · exact absurd h3 (by simp [TreeNode.isLeaf])
      rw [grow, growFresh, if_pos hg]
      exact ⟨rfl, rfl⟩
  · intro depth rng2 h hfo
    rw [grow, growFresh, if_neg h, hfo]
    exact ⟨rfl, rfl⟩
  · intro depth best rng2 h hfo
    obtain ⟨k, hk⟩ : ∃ k, p.max_depth - depth = k + 1 :=
      ⟨p.max_depth - depth - 1, by omega⟩
    have hk2 : p.max_depth - (depth + 1) = k := by omega
    simp only [grow, hk, hk2]
    rw [growFresh, if_neg h, hfo]

/-- C4 (witness): the three accounting branches at concrete inputs: a
forced leaf at the depth bound (zero contribution), a failed search at the
root of a `max_depth = 1` tree (contribution `2^1 - 1`), and a fresh split
chain in a `max_depth = 2` tree. -/
theorem grow_accounting_witness :
    ((.leaf 1 [] : TreeNode).getDepth ≤ p2.max_depth
      ∧ (grow genZero evZero p2 (.leaf 1 []) [5] ⟨0, 0, ⟨[]⟩⟩).2.i_node = 0
      ∧ (grow genZero evZero p2 (.leaf 1 []) [5] ⟨0, 0, ⟨[]⟩⟩).2.i_leaf = 1)
    ∧ (findOptimalSplit genZero p2 [5] 0 ⟨[]⟩ = (none, ⟨[]⟩)
      ∧ (grow genZero evZero p2 (.unresolved 0) [5] ⟨0, 0, ⟨[]⟩⟩).2.i_node = 1
      ∧ (grow genZero evZero p2 (.unresolved 0) [5] ⟨0, 0, ⟨[]⟩⟩).2.i_leaf = 1)
    ∧ (findOptimalSplit genOne p3 [5] 0 ⟨[]⟩ = (some ⟨0, 0, 7, 0⟩, ⟨[]⟩)
      ∧ grow genOne evZero p3 (.unresolved 0) [5] ⟨0, 0, ⟨[]⟩⟩
          = (.internal 0 ⟨0, 0, 7, 0⟩
              (.internal 1 ⟨0, 0, 7, 0⟩ (.leaf 2 [5]) (.leaf 2 []))
              (.leaf 1 []),
             ⟨3, 3, ⟨[]⟩⟩)) :=
  ⟨⟨by decide,
    ((grow_accounting genZero evZero p2 [5] ⟨0, 0, ⟨[]⟩⟩).1 (.leaf 1 [])
      (by decide) (by decide)).1,
    ((grow_accounting genZero evZero p2 [5] ⟨0, 0, ⟨[]⟩⟩).1 (.leaf 1 [])
      (by decide) (by decide)).2⟩,
   ⟨by decide,
    ((grow_accounting genZero evZero p2 [5] ⟨0, 0, ⟨[]⟩⟩).2.1 0 ⟨[]⟩
      (by decide) (by decide)).1,
    ((grow_accounting genZero evZero p2 [5] ⟨0, 0, ⟨[]⟩⟩).2.1 0 ⟨[]⟩
      (by decide) (by decide)).2⟩,
   ⟨by decide,
    (grow_accounting genOne evZero p3 [5] ⟨0, 0, ⟨[]⟩⟩).2.2 0 ⟨0, 0, 7, 0⟩ ⟨[]⟩
      (by decide) (by decide)⟩⟩


/-- Length bookkeeping for the modelled partition: splitting a pair list by
a threshold keeps every element on exactly one side. -/
lemma length_filter_split (l : List (Int × Nat)) (t : Int) :
    (l.filter fun vi => vi.1 ≤ t).length
      + (l.filter fun vi => ¬ vi.1 ≤ t).length = l.length := by
  induction l with
  | nil => rfl
  | cons a l ih =>
    by_cases h : a.1 ≤ t
    · have h' : ¬ t < a.1 := not_lt.mpr h
      simp [List.filter_cons, h, h', not_le] at ih ⊢
      omega
    · have h' : t < a.1 := not_le.mp h
      simp [List.filter_cons, h, h', not_le] at ih ⊢
      omega

/-- The value/index list `Tree::applyOptimalSplit` builds has one entry per
sample. -/
lemma valSet_length (ev : EvalFn) (samples : List Sample) (best : Split) :
    (valSet ev samples best).length = samples.length := by
  unfold valSet
  rw [List.length_map, List.enum_length]

/-- C8: routing during growth: `Tree::applyOptimalSplit` sorts the
value/index pairs of the batch into stable ascending order by the scalar
test value (the sorted list is a permutation of the original pairs and is
sorted under the lexicographic (value, original-index) order, which on the
distinct indices is exactly "ascending by value, ties in batch order"),
hands exactly that ordered batch to the split generator's partition, and
the partition is lossless: the two subsets' sizes add up to the batch
size, for every batch size. -/
theorem routing_spec (ev : EvalFn) (samples : List Sample) (best : Split) :
    (List.insertionSort IntIndexLe (valSet ev samples best)).Perm (valSet ev samples best)
    ∧ (List.insertionSort IntIndexLe (valSet ev samples best)).Sorted IntIndexLe
    ∧ applyOptimalSplit ev samples best
        = splitSamples samples (List.insertionSort IntIndexLe (valSet ev samples best))
            best.threshold best.margin
    ∧ (applyOptimalSplit ev samples best).1.length
        + (applyOptimalSplit ev samples best).2.length = samples.length := by
  refine ⟨List.perm_insertionSort IntIndexLe (valSet ev samples best),
    List.sorted_insertionSort IntIndexLe (valSet ev samples best), rfl, ?_⟩
  unfold applyOptimalSplit splitSamples
  rw [List.length_map, List.length_map, length_filter_split,
    List.length_insertionSort, valSet_length]

/-- C6: selection over the generated candidates: (i) a successful selection
returns the first candidate attaining the maximal `info` — every candidate
scores no more than it, everything placed before it scores strictly less
and everything after it scores no more, so a later candidate with equal
`info` never replaces it; (ii) selection fails exactly when no candidate
scores above the initial sentinel; (iii) the value `findOptimalSplit`
returns is this selection applied to the generator's output; (iv) on
failure `grow` forces the node to a leaf (counted in `i_leaf`) instead of
splitting it. -/
theorem split_selection_spec (splits : List Split) :
    (∀ b, selectBestSplit splits = some b →
      (∀ s ∈ splits, s.info ≤ b.info)
      ∧ ∃ l1 l2, splits = l1 ++ b :: l2 ∧ (∀ s ∈ l1, s.info < b.info)
          ∧ (∀ s ∈ l2, s.info ≤ b.info))
    ∧ (selectBestSplit splits = none ↔ ∀ s ∈ splits, s.info ≤ lowestDouble)
    ∧ (∀ gen p samples depth rng, (findOptimalSplit gen p samples depth rng).1
        = selectBestSplit (gen samples p.ntests (drawUniformInt 0 100 rng).2
            p.patch_size depth (drawUniformInt 0 100 rng).1).1)
    ∧ (∀ gen ev p depth samples st rng2,
        ¬(samples.length < p.min_patches ∨ p.max_depth ≤ depth) →
        findOptimalSplit gen p samples depth st.rng = (none, rng2) →
        (grow gen ev p (.unresolved depth) samples st).1 = .leaf depth (summarize samples)
        ∧ (grow gen ev p (.unresolved depth) samples st).2.i_leaf = st.i_leaf + 1) := by
  refine ⟨?_, selectBest_none_iff splits, fun gen p samples depth rng => rfl, ?_⟩
  · intro b hb
    obtain ⟨l1, l2, hdec, h1, h2⟩ := selectBest_some splits b hb
    refine ⟨?_, l1, l2, hdec, h1, h2⟩
    intro s hs
    rw [hdec] at hs
    rcases List.mem_append.mp hs with hs1 | hs2
    · exact le_of_lt (h1 s hs1)
    · rcases List.mem_cons.mp hs2 with rfl | hs3
      · exact le_refl _
      · exact h2 s hs3
  · intro gen ev p depth samples st rng2 h hfo
    rw [grow, growFresh, if_neg h, hfo]
    exact ⟨rfl, rfl⟩

/-- C6 (witness): selection over a concrete candidate list with a tie — the
first of the two `info = 7` candidates wins — plus the failure case on an
empty candidate list and the forced leaf it causes in `grow`. -/
theorem split_selection_spec_witness :
    (selectBestSplit [⟨1, 1, 5, 0⟩, ⟨2, 2, 7, 0⟩, ⟨3, 3, 7, 0⟩] = some ⟨2, 2, 7, 0⟩
      ∧ (∀ s ∈ [(⟨1, 1, 5, 0⟩ : Split), ⟨2, 2, 7, 0⟩, ⟨3, 3, 7, 0⟩],
          s.info ≤ (⟨2, 2, 7, 0⟩ : Split).info)
      ∧ ∃ l1 l2, [(⟨1, 1, 5, 0⟩ : Split), ⟨2, 2, 7, 0⟩, ⟨3, 3, 7, 0⟩]
            = l1 ++ (⟨2, 2, 7, 0⟩ : Split) :: l2
          ∧ (∀ s ∈ l1, s.info < (⟨2, 2, 7, 0⟩ : Split).info)
          ∧ (∀ s ∈ l2, s.info ≤ (⟨2, 2, 7, 0⟩ : Split).info))
    ∧ selectBestSplit [] = none
    ∧ (findOptimalSplit genZero p2 [5] 0 ⟨[]⟩ = (none, ⟨[]⟩)
      ∧ (grow genZero evZero p2 (.unresolved 0) [5] ⟨0, 0, ⟨[]⟩⟩).1
          = .leaf 0 (summarize [5])
      ∧ (grow genZero evZero p2 (.unresolved 0) [5] ⟨0, 0, ⟨[]⟩⟩).2.i_leaf = 0 + 1) :=
  ⟨⟨by decide,
    (split_selection_spec [⟨1, 1, 5, 0⟩, ⟨2, 2, 7, 0⟩, ⟨3, 3, 7, 0⟩]).1
      ⟨2, 2, 7, 0⟩ (by decide)⟩,
   (split_selection_spec []).2.1.mpr (by simp),
   ⟨by decide,
    (split_selection_spec []).2.2.2 genZero evZero p2 0 [5] ⟨0, 0, ⟨[]⟩⟩ ⟨[]⟩
      (by decide) (by decide)⟩⟩

/-- C10: the split-mode protocol of `Tree::findOptimalSplit`: the
`uniform_int(0, 100)` draw consumes exactly one raw draw of the stream and
yields a value in `[0, 100]`; `findOptimalSplit` makes this draw exactly
once, before candidate generation, handing the generator the once-advanced
stream together with the drawn mode; and every mode in `[0, 100]` is
realizable by some raw draw. -/
theorem split_mode_spec (x : Nat) (xs : List Nat) (p : ForestParam)
    (samples : List Sample) (depth : Nat) :
    drawUniformInt 0 100 ⟨x :: xs⟩ = (x % 101, ⟨xs⟩)
    ∧ x % 101 ≤ 100
    ∧ (∀ gen : GenFn, findOptimalSplit gen p samples depth ⟨x :: xs⟩
        = (selectBestSplit (gen samples p.ntests ⟨xs⟩ p.patch_size depth (x % 101)).1,
           (gen samples p.ntests ⟨xs⟩ p.patch_size depth (x % 101)).2))
    ∧ (∀ v : Nat, v ≤ 100 → ∃ y ys, drawUniformInt 0 100 ⟨y :: ys⟩ = (v, ⟨ys⟩)) := by
  have h1 : drawUniformInt 0 100 ⟨x :: xs⟩ = (x % 101, ⟨xs⟩) := by
    show (0 + x % (100 - 0 + 1), Rng.mk xs) = (x % 101, ⟨xs⟩)
    rw [Nat.zero_add]
  refine ⟨h1, by omega, ?_, ?_⟩
  · intro gen
    unfold findOptimalSplit
    rw [h1]
  · intro v hv
    refine ⟨v, [], ?_⟩
    show (0 + v % (100 - 0 + 1), Rng.mk []) = (v, ⟨[]⟩)
    rw [Nat.zero_add, Nat.mod_eq_of_lt (by omega)]

/-- C10 (witness): the mode protocol at the raw draw 205: the drawn mode is
`205 % 101 = 3`, the generator sees the advanced stream, and mode 42 is
realizable. -/
theorem split_mode_spec_witness :
    drawUniformInt 0 100 ⟨[205, 9]⟩ = (3, ⟨[9]⟩)
    ∧ findOptimalSplit genOne p3 [5] 0 ⟨[205, 9]⟩
        = (selectBestSplit (genOne [5] p3.ntests ⟨[9]⟩ p3.patch_size 0 3).1,
           (genOne [5] p3.ntests ⟨[9]⟩ p3.patch_size 0 3).2)
    ∧ (42 ≤ 100 ∧ ∃ y ys, drawUniformInt 0 100 ⟨y :: ys⟩ = (42, ⟨ys⟩)) :=
  ⟨(split_mode_spec 205 [9] p3 [5] 0).1,
   (split_mode_spec 205 [9] p3 [5] 0).2.2.1 genOne,
   by decide, (split_mode_spec 205 [9] p3 [5] 0).2.2.2 42 (by decide)⟩

end FaceAlign
